import Mathlib

/-!
# Verification of the collage maker's action-log engine

A shallow embedding of the program's core (`src/unnamed/part_000`): the
action-log derived-state engine, identifier and name allocation, undo/redo
compaction, pending-transformation finalization, and the JSON export/import
validator, together with theorems settling the specification's claims.

Modelling conventions:
* JavaScript numbers are modelled as exact rationals (`ℚ`); sprite ids, which
  the program only ever produces as natural numbers (`0` or `1 + max`), are
  modelled as `ℕ`.
* `ImageFile` keeps the fields the core logic reads (`name`, `width`,
  `height`, `sha256`); the raw pixel buffer, object URL and DOM image handle
  are rendering-surface data that no embedded function inspects.
* JavaScript reference equality (`===`) on `ImageFile` is modelled as
  structural equality: in every comparison the program performs, the two
  compared images have the same provenance (a sprite's image is never
  replaced), so the two notions agree on all reachable comparisons.
* `Math.hypot` is kept as an uninterpreted parameter `hypot : ℚ → ℚ → ℚ`:
  the claims settled here only touch code paths that do not evaluate it.
* Loops are rendered as structural recursions (with a fuel argument where the
  source iterates until a data-dependent condition, plus a sufficiency proof),
  so that every definition evaluates by kernel reduction.
-/

namespace Collage

def digitChar (d : ℕ) : Char :=
  match d with
  | 0 => '0' | 1 => '1' | 2 => '2' | 3 => '3' | 4 => '4'
  | 5 => '5' | 6 => '6' | 7 => '7' | 8 => '8' | 9 => '9'
  | _ => '*'

def toDecimalAux : ℕ → ℕ → List ℕ
  | 0, _ => []
  | fuel + 1, n => if n < 10 then [n] else n % 10 :: toDecimalAux fuel (n / 10)

def toDecimal (n : ℕ) : List ℕ := toDecimalAux (n + 1) n

def ofDecimal : List ℕ → ℕ
  | [] => 0
  | d :: ds => d + 10 * ofDecimal ds

def natToString (n : ℕ) : String := ((toDecimal n).reverse.map digitChar).asString

structure ImageFile where
  name : String
  width : ℚ
  height : ℚ
  sha256 : String
deriving DecidableEq

structure Sprite where
  name : String
  id : ℕ
  image : ImageFile
  x : ℚ
  y : ℚ
  width : ℚ
deriving DecidableEq

structure IdealSprite where
  spriteName : String
  image : ImageFile
  x : ℚ
  y : ℚ
  width : ℚ
deriving DecidableEq

inductive LayerChangeKind where
  | moveUp | moveDown | moveToTop | moveToBottom
deriving DecidableEq

inductive Action where
  | create (image : ImageFile)
  | delete (spriteId : ℕ)
  | duplicate (spriteId : ℕ)
  | translate (spriteId : ℕ) (newX newY : ℚ)
  | scale (spriteId : ℕ) (newWidth : ℚ)
  | reorderLayers (spriteId : ℕ) (layerChangeKind : LayerChangeKind)
  | rename (spriteId : ℕ) (idealNewName : String)
  | bulkImport (idealSprites : List IdealSprite)
deriving DecidableEq

structure PendingData where
  spriteId : ℕ
  pointerStartX : ℚ
  pointerStartY : ℚ
  pointerCurrentX : ℚ
  pointerCurrentY : ℚ
deriving DecidableEq

inductive PendingSpriteTransformation where
  | translate (d : PendingData)
  | scale (d : PendingData)
deriving DecidableEq

inductive PasteBufferMode where
  | noOp | width | height
deriving DecidableEq

structure PasteBuffer where
  mode : PasteBufferMode
  value : ℚ
deriving DecidableEq

def imageExtensions : List String := [".png", ".jpg", ".jpeg", ".svg"]

def maxImportAspectRatioDiff : ℚ := 1 / 1000

def jsToLower (s : String) : String := ⟨s.data.map Char.toLower⟩

def splitOnSlashesAux : List Char → List Char → List (List Char)
  | [], cur => [cur.reverse]
  | c :: rest, cur =>
    if c = '/' ∨ c = '\\' then cur.reverse :: splitOnSlashesAux rest []
    else splitOnSlashesAux rest (c :: cur)

def isImageFileName (name : String) : Bool :=
  let lowerCaseName := jsToLower name
  let lastSegment := (splitOnSlashesAux lowerCaseName.data []).getLastD []
  let startsWithDot : Bool := match lastSegment with | '.' :: _ => true | _ => false
  if lowerCaseName == "" || startsWithDot then
    false
  else
    imageExtensions.any (fun extension => extension.data.isSuffixOf lowerCaseName.data)

def stripExtension (s : String) : String :=
  if '.' ∈ s.data then ⟨((s.data.reverse.dropWhile (· ≠ '.')).drop 1).reverse⟩
  else s

def getUnusedId (sprites : List Sprite) : ℕ :=
  match sprites with
  | [] => 0
  | _ => 1 + (sprites.map Sprite.id).foldl Nat.max 0

def isDigitCh (c : Char) : Bool := '0' ≤ c ∧ c ≤ '9'

def charToDigit (c : Char) : ℕ := c.toNat - 48

def splitTrailingCounter (s : String) : Option (String × ℕ) :=
  match s.data.reverse with
  | ')' :: rest =>
    let ds := rest.takeWhile isDigitCh
    if ds.isEmpty then none
    else
      match rest.drop ds.length with
      | '(' :: ' ' :: remaining =>
        some (⟨remaining.reverse⟩, ofDecimal (ds.map charToDigit))
      | _ => none
  | _ => none

def mkCandidate (idealName : String) (counter : ℕ) : String :=
  idealName ++ " (" ++ natToString counter ++ ")"

def searchFreeAux (idealName : String) (names : List String) : ℕ → ℕ → String
  | 0, counter => mkCandidate idealName counter
  | fuel + 1, counter =>
    let candidate := mkCandidate idealName counter
    if candidate ∈ names then searchFreeAux idealName names fuel (counter + 1)
    else candidate

def getUnusedSpriteNameAux (names : List String) :
    ℕ → String → ℕ → String
  | 0, idealName, _ => idealName
  | fuel + 1, idealName, minimumCounter =>
    if idealName ∉ names then idealName
    else
      match splitTrailingCounter idealName with
      | some (base, parsed) => getUnusedSpriteNameAux names fuel base (parsed + 1)
      | none => searchFreeAux idealName names (names.length + 1) minimumCounter

def getUnusedSpriteNameWithMinimumCounter (idealName : String)
    (sprites : List Sprite) (minimumCounter : ℕ) : String :=
  getUnusedSpriteNameAux (sprites.map Sprite.name) (idealName.length + 1)
    idealName minimumCounter

def getUnusedSpriteName (idealName : String) (sprites : List Sprite) : String :=
  getUnusedSpriteNameWithMinimumCounter idealName sprites 1

def applySpriteCreation (image : ImageFile) (sprites : List Sprite) : List Sprite :=
  let idealName :=
    if isImageFileName image.name then stripExtension image.name else image.name
  sprites ++ [{ name := getUnusedSpriteName idealName sprites
                id := getUnusedId sprites
                image := image
                x := 0
                y := 0
                width := image.width }]

def applySpriteDeletion (spriteId : ℕ) (sprites : List Sprite) : List Sprite :=
  sprites.filter (fun sprite => sprite.id ≠ spriteId)

def applySpriteDuplication (spriteId : ℕ) (sprites : List Sprite) : List Sprite :=
  match sprites.find? (fun s => s.id == spriteId) with
  | none => sprites
  | some original =>
    sprites ++ [{ name := getUnusedSpriteName original.name sprites
                  id := getUnusedId sprites
                  image := original.image
                  x := original.x
                  y := original.y
                  width := original.width }]

def applySpriteTranslation (spriteId : ℕ) (newX newY : ℚ)
    (sprites : List Sprite) : List Sprite :=
  sprites.map (fun sprite =>
    if sprite.id = spriteId then { sprite with x := newX, y := newY } else sprite)

def applySpriteScaling (spriteId : ℕ) (newWidth : ℚ)
    (sprites : List Sprite) : List Sprite :=
  sprites.map (fun sprite =>
    if sprite.id ≠ spriteId then sprite
    else
      let oldWidth := sprite.width
      let newHeight := newWidth * sprite.image.height / sprite.image.width
      let oldHeight := oldWidth * sprite.image.height / sprite.image.width
      { sprite with
          x := sprite.x - (newWidth - oldWidth) / 2
          y := sprite.y - (newHeight - oldHeight) / 2
          width := newWidth })

def applySpriteLayerReordering (spriteId : ℕ) (layerChangeKind : LayerChangeKind)
    (sprites : List Sprite) : List Sprite :=
  let spriteIndex := sprites.findIdx (fun s => s.id == spriteId)
  if hfound : spriteIndex < sprites.length then
    let sprite := sprites.get ⟨spriteIndex, hfound⟩
    match layerChangeKind with
    | .moveUp =>
      if htop : spriteIndex = sprites.length - 1 then sprites
      else
        sprites.take spriteIndex ++
          [sprites.get ⟨spriteIndex + 1, by omega⟩, sprite] ++
          sprites.drop (spriteIndex + 2)
    | .moveDown =>
      if hbot : spriteIndex = 0 then sprites
      else
        sprites.take (spriteIndex - 1) ++
          [sprite, sprites.get ⟨spriteIndex - 1, by omega⟩] ++
          sprites.drop (spriteIndex + 1)
    | .moveToTop =>
      sprites.take spriteIndex ++ sprites.drop (spriteIndex + 1) ++ [sprite]
    | .moveToBottom =>
      sprite :: (sprites.take spriteIndex ++ sprites.drop (spriteIndex + 1))
  else sprites

def applySpriteRenaming (spriteId : ℕ) (idealNewName : String)
    (sprites : List Sprite) : List Sprite :=
  let newName := getUnusedSpriteName idealNewName sprites
  sprites.map (fun sprite =>
    if sprite.id = spriteId then { sprite with name := newName } else sprite)

def bulkImportStep (out : List Sprite) (idealSprite : IdealSprite) : Sprite :=
  { name := getUnusedSpriteName idealSprite.spriteName out
    id := getUnusedId out
    image := idealSprite.image
    x := idealSprite.x
    y := idealSprite.y
    width := idealSprite.width }

def bulkImportLoop : List Sprite → List IdealSprite → List Sprite
  | out, [] => out
  | out, idealSprite :: rest =>
    bulkImportLoop (out ++ [bulkImportStep out idealSprite]) rest

def applyBulkImport (idealSprites : List IdealSprite)
    (sprites : List Sprite) : List Sprite :=
  bulkImportLoop sprites idealSprites

def applyAction (action : Action) (sprites : List Sprite) : List Sprite :=
  match action with
  | .create image => applySpriteCreation image sprites
  | .delete spriteId => applySpriteDeletion spriteId sprites
  | .duplicate spriteId => applySpriteDuplication spriteId sprites
  | .translate spriteId newX newY => applySpriteTranslation spriteId newX newY sprites
  | .scale spriteId newWidth => applySpriteScaling spriteId newWidth sprites
  | .reorderLayers spriteId layerChangeKind =>
    applySpriteLayerReordering spriteId layerChangeKind sprites
  | .rename spriteId idealNewName => applySpriteRenaming spriteId idealNewName sprites
  | .bulkImport idealSprites => applyBulkImport idealSprites sprites

def foldActions (actions : List Action) : List Sprite :=
  actions.foldl (fun sprites action => applyAction action sprites) []

def finalizePendingSpriteTranslation (t : PendingData)
    (sprites : List Sprite) : Action :=
  let oldSprite := sprites.find? (fun s => s.id == t.spriteId)
  let oldX := match oldSprite with | none => 0 | some s => s.x
  let oldY := match oldSprite with | none => 0 | some s => s.y
  .translate t.spriteId (oldX + (t.pointerCurrentX - t.pointerStartX))
    (oldY + (t.pointerCurrentY - t.pointerStartY))

def finalizePendingSpriteScaling (hypot : ℚ → ℚ → ℚ) (t : PendingData)
    (sprites : List Sprite) : Action :=
  let oldSprite := sprites.find? (fun s => s.id == t.spriteId)
  let oldX := match oldSprite with | none => 0 | some s => s.x
  let oldY := match oldSprite with | none => 0 | some s => s.y
  let oldWidth := match oldSprite with | none => 0 | some s => s.width
  let oldImageWidth := match oldSprite with | none => 0 | some s => s.image.width
  let oldImageHeight := match oldSprite with | none => 0 | some s => s.image.height
  if t.pointerCurrentX = t.pointerStartX ∧ t.pointerCurrentY = t.pointerStartY then
    .scale t.spriteId oldWidth
  else
    let centerX := oldX + oldWidth / 2
    let centerY := oldY + oldWidth * oldImageHeight / oldImageWidth / 2
    let startPointerDistance :=
      hypot (t.pointerStartX - centerX) (t.pointerStartY - centerY)
    let currentPointerDistance :=
      hypot (t.pointerCurrentX - centerX) (t.pointerCurrentY - centerY)
    .scale t.spriteId (oldWidth * currentPointerDistance / startPointerDistance)

def finalizePendingSpriteTransformation (hypot : ℚ → ℚ → ℚ)
    (t : PendingSpriteTransformation) (sprites : List Sprite) : Action :=
  match t with
  | .translate d => finalizePendingSpriteTranslation d sprites
  | .scale d => finalizePendingSpriteScaling hypot d sprites

def applyPendingTransformation (hypot : ℚ → ℚ → ℚ)
    (t : PendingSpriteTransformation) (sprites : List Sprite) : List Sprite :=
  applyAction (finalizePendingSpriteTransformation hypot t sprites) sprites

def getSprites (hypot : ℚ → ℚ → ℚ) (actions : List Action)
    (pendingTransformation : Option PendingSpriteTransformation) : List Sprite :=
  let sprites := foldActions actions
  match pendingTransformation with
  | none => sprites
  | some t => applyPendingTransformation hypot t sprites

def areSpritesEqual (a b : Sprite) : Bool :=
  decide (a.name = b.name) && decide (a.id = b.id) && decide (a.image = b.image) &&
    decide (a.x = b.x) && decide (a.y = b.y) && decide (a.width = b.width)

def areSpriteArraysEqual (a b : List Sprite) : Bool :=
  decide (a.length = b.length) &&
    (a.zip b).all (fun p => areSpritesEqual p.1 p.2)

def getMeaningfulActionsAux : List Action → List Sprite → List Action
  | [], _ => []
  | action :: rest, sprites =>
    let newSprites := applyAction action sprites
    if areSpriteArraysEqual sprites newSprites then
      getMeaningfulActionsAux rest sprites
    else
      action :: getMeaningfulActionsAux rest newSprites

def getMeaningfulActions (actions : List Action) : List Action :=
  getMeaningfulActionsAux actions []

structure SpriteExportData where
  spriteName : String
  imageFileName : String
  imageSha256 : String
  x : ℚ
  y : ℚ
  width : ℚ
  height : ℚ
deriving DecidableEq

def serializeSprites (sprites : List Sprite) : List SpriteExportData :=
  sprites.map (fun sprite =>
    { spriteName := sprite.name
      imageFileName := sprite.image.name
      imageSha256 := sprite.image.sha256
      x := sprite.x
      y := sprite.y
      width := sprite.width
      height := sprite.width * sprite.image.height / sprite.image.width })

inductive JsonValue where
  | null
  | bool (b : Bool)
  | num (q : ℚ)
  | str (s : String)
  | arr (elems : List JsonValue)
  | obj (fields : List (String × JsonValue))

def getField : JsonValue → String → Option JsonValue
  | .obj fields, key => (fields.find? (fun f => f.1 == key)).map (·.2)
  | _, _ => none

def isObjectLike : JsonValue → Bool
  | .arr _ => true
  | .obj _ => true
  | _ => false

inductive ImportError where
  | notAnArray (uncheckedFile : JsonValue)
  | notAnObject (fileIndex spriteIndex : ℕ)
  | spriteNameNotString (fileIndex spriteIndex : ℕ)
  | imageFileNameNotString (fileIndex spriteIndex : ℕ)
  | imageSha256NotString (fileIndex spriteIndex : ℕ)
  | imageNotFound (fileIndex spriteIndex : ℕ) (imageSha256 : String)
  | xNotFinite (fileIndex spriteIndex : ℕ)
  | yNotFinite (fileIndex spriteIndex : ℕ)
  | widthInvalid (fileIndex spriteIndex : ℕ)
  | heightInvalid (fileIndex spriteIndex : ℕ)
  | aspectRatioMismatch (fileIndex spriteIndex : ℕ)

def aspectRatioCheckPasses (width height imageWidth imageHeight : ℚ) : Bool :=
  if height = 0 then false
  else if imageHeight = 0 then decide (0 < imageWidth)
  else decide (width / height - imageWidth / imageHeight ≤ maxImportAspectRatioDiff)

def validateSprite (imageFiles : List ImageFile) (fileIndex spriteIndex : ℕ)
    (uncheckedSprite : JsonValue) : Except ImportError IdealSprite :=
  if ¬ isObjectLike uncheckedSprite then
    .error (.notAnObject fileIndex spriteIndex)
  else
    match getField uncheckedSprite "spriteName" with
    | some (.str spriteName) =>
      match getField uncheckedSprite "imageFileName" with
      | some (.str _) =>
        match getField uncheckedSprite "imageSha256" with
        | some (.str imageSha256) =>
          match imageFiles.find? (fun i => i.sha256 == imageSha256) with
          | none => .error (.imageNotFound fileIndex spriteIndex imageSha256)
          | some image =>
            match getField uncheckedSprite "x" with
            | some (.num x) =>
              match getField uncheckedSprite "y" with
              | some (.num y) =>
                match getField uncheckedSprite "width" with
                | some (.num width) =>
                  if ¬ (0 ≤ width) then .error (.widthInvalid fileIndex spriteIndex)
                  else
                    match getField uncheckedSprite "height" with
                    | some (.num height) =>
                      if ¬ (0 ≤ height) then
                        .error (.heightInvalid fileIndex spriteIndex)
                      else if ¬ aspectRatioCheckPasses width height
                          image.width image.height then
                        .error (.aspectRatioMismatch fileIndex spriteIndex)
                      else
                        .ok { spriteName := spriteName, image := image,
                              x := x, y := y, width := width }
                    | _ => .error (.heightInvalid fileIndex spriteIndex)
                | _ => .error (.widthInvalid fileIndex spriteIndex)
              | _ => .error (.yNotFinite fileIndex spriteIndex)
            | _ => .error (.xNotFinite fileIndex spriteIndex)
        | _ => .error (.imageSha256NotString fileIndex spriteIndex)
      | _ => .error (.imageFileNameNotString fileIndex spriteIndex)
    | _ => .error (.spriteNameNotString fileIndex spriteIndex)

def validateFileSprites (imageFiles : List ImageFile) (fileIndex : ℕ) :
    ℕ → List JsonValue → Except ImportError (List IdealSprite)
  | _, [] => .ok []
  | spriteIndex, uncheckedSprite :: rest =>
    match validateSprite imageFiles fileIndex spriteIndex uncheckedSprite with
    | .error e => .error e
    | .ok idealSprite =>
      match validateFileSprites imageFiles fileIndex (spriteIndex + 1) rest with
      | .error e => .error e
      | .ok rest' => .ok (idealSprite :: rest')

def importFiles (imageFiles : List ImageFile) :
    ℕ → List JsonValue → Except ImportError (List IdealSprite)
  | _, [] => .ok []
  | fileIndex, uncheckedFile :: rest =>
    match uncheckedFile with
    | .arr file =>
      match validateFileSprites imageFiles fileIndex 0 file with
      | .error e => .error e
      | .ok fileSprites =>
        match importFiles imageFiles (fileIndex + 1) rest with
        | .error e => .error e
        | .ok restSprites => .ok (fileSprites ++ restSprites)
    | _ => .error (.notAnArray uncheckedFile)

def importSpriteDotJson (jsonObjects : List JsonValue)
    (imageFiles : List ImageFile) : Except ImportError Action :=
  (importFiles imageFiles 0 jsonObjects).map Action.bulkImport

structure AppState where
  isProcessingJsonFile : Bool
  imageFiles : List ImageFile
  actions : List Action
  redoStack : List Action
  pendingTransformation : Option PendingSpriteTransformation
  pasteBuffer : PasteBuffer
deriving DecidableEq

def createSpriteFromImage (st : AppState) (image : ImageFile) : AppState :=
  { st with actions := st.actions ++ [.create image], redoStack := [] }

def appendEditAction (st : AppState) (action : Action) : AppState :=
  { st with actions := st.actions ++ [action], redoStack := [] }

def finalizeGestureTransition (hypot : ℚ → ℚ → ℚ) (st : AppState)
    (t : PendingSpriteTransformation) : AppState :=
  let sprites := getSprites hypot st.actions none
  { st with
      actions := st.actions ++ [finalizePendingSpriteTransformation hypot t sprites]
      redoStack := []
      pendingTransformation := none }

def undoTransition (st : AppState) : AppState :=
  let meaningfulPrevStateActions := getMeaningfulActions st.actions
  { st with
      actions := meaningfulPrevStateActions.dropLast
      redoStack := st.redoStack ++
        meaningfulPrevStateActions.drop (meaningfulPrevStateActions.length - 1) }

def redoTransition (st : AppState) : AppState :=
  { st with
      actions := st.actions ++ st.redoStack.drop (st.redoStack.length - 1)
      redoStack := st.redoStack.dropLast }

def onJsonImportTransition (st : AppState) (jsonObjects : List JsonValue) :
    AppState :=
  match importSpriteDotJson jsonObjects st.imageFiles with
  | .error _ => { st with isProcessingJsonFile := false }
  | .ok action =>
    { st with isProcessingJsonFile := false, actions := st.actions ++ [action] }

def imgA : ImageFile := { name := "a.png", width := 100, height := 50, sha256 := "hashOfA" }

def sprA : Sprite := { name := "a", id := 0, image := imgA, x := 0, y := 0, width := 100 }

def exampleDoc51 : JsonValue :=
  .arr [.obj [("spriteName", .str "a"), ("imageFileName", .str "a.png"),
    ("imageSha256", .str "hashOfA"), ("x", .num 0), ("y", .num 0),
    ("width", .num 100), ("height", .num 51)]]

def exampleDoc49 : JsonValue :=
  .arr [.obj [("spriteName", .str "a"), ("imageFileName", .str "a.png"),
    ("imageSha256", .str "hashOfA"), ("x", .num 0), ("y", .num 0),
    ("width", .num 100), ("height", .num 49)]]

def stateWithRedo : AppState :=
  { isProcessingJsonFile := true
    imageFiles := [imgA]
    actions := []
    redoStack := [.delete 0]
    pendingTransformation := none
    pasteBuffer := { mode := .noOp, value := 0 } }

def isAbsoluteTargetAction : Action → Prop
  | .translate _ _ _ => True
  | .scale _ _ => True
  | .delete _ => True
  | _ => False

def zeroHypot : ℚ → ℚ → ℚ := fun _ _ => 0

def UniqueSprites (sprites : List Sprite) : Prop :=
  (sprites.map Sprite.id).Nodup ∧ (sprites.map Sprite.name).Nodup

def validRecord (imageFiles : List ImageFile) (uncheckedSprite : JsonValue) :
    Option IdealSprite :=
  if ¬ isObjectLike uncheckedSprite then none
  else
    match getField uncheckedSprite "spriteName" with
    | some (.str spriteName) =>
      match getField uncheckedSprite "imageFileName" with
      | some (.str _) =>
        match getField uncheckedSprite "imageSha256" with
        | some (.str imageSha256) =>
          match imageFiles.find? (fun i => i.sha256 == imageSha256) with
          | none => none
          | some image =>
            match getField uncheckedSprite "x" with
            | some (.num x) =>
              match getField uncheckedSprite "y" with
              | some (.num y) =>
                match getField uncheckedSprite "width" with
                | some (.num width) =>
                  if ¬ (0 ≤ width) then none
                  else
                    match getField uncheckedSprite "height" with
                    | some (.num height) =>
                      if ¬ (0 ≤ height) then none
                      else if ¬ aspectRatioCheckPasses width height
                          image.width image.height then none
                      else some { spriteName := spriteName, image := image,
                                  x := x, y := y, width := width }
                    | _ => none
                | _ => none
              | _ => none
            | _ => none
        | _ => none
      | _ => none
    | _ => none

def collectRecords (imageFiles : List ImageFile) :
    List JsonValue → Option (List IdealSprite)
  | [] => some []
  | v :: rest =>
    match validRecord imageFiles v, collectRecords imageFiles rest with
    | some s, some ss => some (s :: ss)
    | _, _ => none

def collectValidRecords (imageFiles : List ImageFile) :
    List JsonValue → Option (List IdealSprite)
  | [] => some []
  | doc :: rest =>
    match doc with
    | .arr records =>
      match collectRecords imageFiles records, collectValidRecords imageFiles rest with
      | some xs, some ys => some (xs ++ ys)
      | _, _ => none
    | _ => none

def exportRecordJson (r : SpriteExportData) : JsonValue :=
  .obj [("spriteName", .str r.spriteName), ("imageFileName", .str r.imageFileName),
    ("imageSha256", .str r.imageSha256), ("x", .num r.x), ("y", .num r.y),
    ("width", .num r.width), ("height", .num r.height)]

def exportedDocument (sprites : List Sprite) : JsonValue :=
  .arr ((serializeSprites sprites).map exportRecordJson)

def spriteToIdeal (s : Sprite) : IdealSprite :=
  { spriteName := s.name, image := s.image, x := s.x, y := s.y, width := s.width }

def spriteData (s : Sprite) : String × ImageFile × ℚ × ℚ × ℚ :=
  (s.name, s.image, s.x, s.y, s.width)

def idealData (i : IdealSprite) : String × ImageFile × ℚ × ℚ × ℚ :=
  (i.spriteName, i.image, i.x, i.y, i.width)

/-! ## Theorems -/

theorem ofDecimal_toDecimalAux (fuel n : ℕ) (h : n < fuel) :
    ofDecimal (toDecimalAux fuel n) = n := by
  induction fuel generalizing n with
  | zero => omega
  | succ fuel ih =>
    rw [toDecimalAux]
    by_cases hn : n < 10
    · simp [hn, ofDecimal]
    · have h10 : 10 ≤ n := by omega
      have hdiv : n / 10 < n := Nat.div_lt_self (by omega) (by omega)
      simp only [hn, if_false, ofDecimal]
      rw [ih (n / 10) (by omega)]
      omega

theorem ofDecimal_toDecimal (n : ℕ) : ofDecimal (toDecimal n) = n :=
  ofDecimal_toDecimalAux (n + 1) n (Nat.lt_succ_self n)

theorem toDecimalAux_lt_ten (fuel n : ℕ) :
    ∀ d ∈ toDecimalAux fuel n, d < 10 := by
  induction fuel generalizing n with
  | zero => simp [toDecimalAux]
  | succ fuel ih =>
    intro d hd
    rw [toDecimalAux] at hd
    by_cases hn : n < 10
    · simp [hn] at hd; omega
    · simp only [hn, if_false, List.mem_cons] at hd
      rcases hd with h | h
      · subst h; exact Nat.mod_lt n (by omega)
      · exact ih (n / 10) d h

theorem digitChar_injOn {a b : ℕ} (ha : a < 10) (hb : b < 10)
    (h : digitChar a = digitChar b) : a = b := by
  interval_cases a <;> interval_cases b <;> simp_all [digitChar]

theorem map_digitChar_inj : ∀ (la lb : List ℕ), (∀ d ∈ la, d < 10) →
    (∀ d ∈ lb, d < 10) → la.map digitChar = lb.map digitChar → la = lb := by
  intro la
  induction la with
  | nil => intro lb _ _ h; cases lb <;> simp_all
  | cons d ds ih =>
    intro lb ha hb h
    cases lb with
    | nil => simp at h
    | cons e es =>
      simp only [List.map_cons, List.cons.injEq] at h
      have hd : d = e := digitChar_injOn (ha d (by simp)) (hb e (by simp)) h.1
      have : ds = es := ih es (fun x hx => ha x (by simp [hx]))
        (fun x hx => hb x (by simp [hx])) h.2
      simp [hd, this]

theorem natToString_injective : Function.Injective natToString := by
  intro a b h
  have hdata : ((toDecimal a).reverse.map digitChar) =
      ((toDecimal b).reverse.map digitChar) := congrArg String.data h
  have hrev : (toDecimal a).map digitChar = (toDecimal b).map digitChar := by
    have h2 := congrArg List.reverse hdata
    simpa [← List.map_reverse] using h2
  have hdig : toDecimal a = toDecimal b :=
    map_digitChar_inj _ _ (toDecimalAux_lt_ten (a + 1) a)
      (toDecimalAux_lt_ten (b + 1) b) hrev
  have h3 := congrArg ofDecimal hdig
  rwa [ofDecimal_toDecimal, ofDecimal_toDecimal] at h3

theorem foldl_max_init_le (l : List ℕ) (b : ℕ) : b ≤ l.foldl Nat.max b := by
  induction l generalizing b with
  | nil => simp
  | cons a l ih => exact le_trans (Nat.le_max_left b a) (ih (Nat.max b a))

theorem mem_le_foldl_max : ∀ (l : List ℕ) (b x : ℕ), x ∈ l → x ≤ l.foldl Nat.max b := by
  intro l
  induction l with
  | nil => intro b x hx; simp at hx
  | cons a l ih =>
    intro b x hx
    rcases List.mem_cons.mp hx with h | h
    · subst h
      exact le_trans (Nat.le_max_right b x) (foldl_max_init_le l (Nat.max b x))
    · exact ih (Nat.max b a) x h

theorem getUnusedId_not_mem (sprites : List Sprite) :
    getUnusedId sprites ∉ sprites.map Sprite.id := by
  cases sprites with
  | nil => simp
  | cons s rest =>
    intro hmem
    have hle := mem_le_foldl_max ((s :: rest).map Sprite.id) 0 _ hmem
    simp only [getUnusedId] at hle
    omega

theorem mkCandidate_inj (idealName : String) {i j : ℕ}
    (h : mkCandidate idealName i = mkCandidate idealName j) : i = j := by
  have hdata := congrArg String.data h
  simp only [mkCandidate, String.data_append, List.append_assoc] at hdata
  have h1 := List.append_cancel_left hdata
  have h2 := List.append_cancel_left h1
  have h3 := List.append_cancel_right h2
  exact natToString_injective (congrArg String.mk h3)

theorem searchFreeAux_not_mem (idealName : String) (names : List String) :
    ∀ (fuel counter : ℕ),
      (∃ j < fuel, mkCandidate idealName (counter + j) ∉ names) →
      searchFreeAux idealName names fuel counter ∉ names := by
  intro fuel
  induction fuel with
  | zero => intro counter h; obtain ⟨j, hj, _⟩ := h; omega
  | succ fuel ih =>
    intro counter h
    rw [searchFreeAux]
    by_cases hc : mkCandidate idealName counter ∈ names
    · simp only [hc, if_true]
      obtain ⟨j, hj, hfree⟩ := h
      have hj0 : j ≠ 0 := by rintro rfl; exact hfree hc
      exact ih (counter + 1) ⟨j - 1, by omega, by
        have : counter + 1 + (j - 1) = counter + j := by omega
        rwa [this]⟩
    · simp [hc]

theorem exists_candidate_not_mem (idealName : String) (names : List String)
    (counter : ℕ) :
    ∃ j < names.length + 1, mkCandidate idealName (counter + j) ∉ names := by
  by_contra hall
  push_neg at hall
  set L : List String :=
    (List.range (names.length + 1)).map (fun j => mkCandidate idealName (counter + j)) with hL
  have hnodup : L.Nodup := by
    refine List.Nodup.map ?_ (List.nodup_range _)
    intro a b hab
    have := mkCandidate_inj idealName hab
    omega
  have hsub : L ⊆ names := by
    intro x hx
    rw [hL] at hx
    obtain ⟨j, hj, rfl⟩ := List.mem_map.mp hx
    exact hall j (List.mem_range.mp hj)
  have hcard : L.toFinset.card = names.length + 1 := by
    rw [List.toFinset_card_of_nodup hnodup, hL, List.length_map, List.length_range]
  have hle : L.toFinset.card ≤ names.toFinset.card :=
    Finset.card_le_card (fun x hx => List.mem_toFinset.mpr (hsub (List.mem_toFinset.mp hx)))
  have := names.toFinset_card_le
  omega

theorem searchFree_not_mem (idealName : String) (names : List String)
    (counter : ℕ) :
    searchFreeAux idealName names (names.length + 1) counter ∉ names :=
  searchFreeAux_not_mem idealName names _ counter
    (exists_candidate_not_mem idealName names counter)

theorem splitTrailingCounter_length {s base : String} {parsed : ℕ}
    (h : splitTrailingCounter s = some (base, parsed)) :
    base.length + 4 ≤ s.length := by
  unfold splitTrailingCounter at h
  split at h
  case h_2 => exact absurd h (by simp)
  case h_1 x rest heq =>
    dsimp only at h
    split at h
    · exact absurd h (by simp)
    · rename_i hempty
      split at h
      case h_2 => exact absurd h (by simp)
      case h_1 x2 remaining heq2 =>
        have hbase : base = String.mk remaining.reverse := by
          injection h with h2
          exact (congrArg Prod.fst h2).symm
        have hlen := congrArg List.length heq
        simp only [List.length_reverse, List.length_cons] at hlen
        have hslen : s.data.length = rest.length + 1 := by omega
        have hds1 : 1 ≤ (rest.takeWhile isDigitCh).length := by
          rcases hd : rest.takeWhile isDigitCh with _ | ⟨a, l⟩
          · rw [hd] at hempty; simp at hempty
          · simp [hd]
        have hdroplen := congrArg List.length heq2
        simp only [List.length_drop, List.length_cons] at hdroplen
        have hbl : base.length = remaining.length := by
          rw [hbase]
          show remaining.reverse.length = remaining.length
          simp
        show base.length + 4 ≤ s.data.length
        omega

theorem getUnusedSpriteNameAux_not_mem (names : List String) :
    ∀ (fuel : ℕ) (idealName : String) (minimumCounter : ℕ),
      idealName.length < fuel →
      getUnusedSpriteNameAux names fuel idealName minimumCounter ∉ names := by
  intro fuel
  induction fuel with
  | zero => intro idealName minimumCounter h; omega
  | succ fuel ih =>
    intro idealName minimumCounter h
    rw [getUnusedSpriteNameAux]
    by_cases hmem : idealName ∈ names
    · simp only [hmem, not_true_eq_false, if_false]
      rcases hsplit : splitTrailingCounter idealName with _ | ⟨base, parsed⟩
      · exact searchFree_not_mem idealName names minimumCounter
      · have hlt := splitTrailingCounter_length hsplit
        exact ih base (parsed + 1) (by omega)
    · simp only [hmem, not_false_eq_true, if_true]

theorem getUnusedSpriteNameWithMinimumCounter_not_mem (idealName : String)
    (sprites : List Sprite) (minimumCounter : ℕ) :
    getUnusedSpriteNameWithMinimumCounter idealName sprites minimumCounter ∉
      sprites.map Sprite.name :=
  getUnusedSpriteNameAux_not_mem (sprites.map Sprite.name) (idealName.length + 1)
    idealName minimumCounter (Nat.lt_succ_self _)

theorem getUnusedSpriteName_not_mem (idealName : String) (sprites : List Sprite) :
    getUnusedSpriteName idealName sprites ∉ sprites.map Sprite.name :=
  getUnusedSpriteNameWithMinimumCounter_not_mem idealName sprites 1

theorem areSpritesEqual_iff (a b : Sprite) : areSpritesEqual a b = true ↔ a = b := by
  cases a; cases b
  simp only [areSpritesEqual, Bool.and_eq_true, decide_eq_true_eq, Sprite.mk.injEq]
  tauto

theorem areSpriteArraysEqual_iff : ∀ (a b : List Sprite),
    areSpriteArraysEqual a b = true ↔ a = b := by
  intro a
  induction a with
  | nil =>
    intro b
    cases b <;> simp [areSpriteArraysEqual]
  | cons x xs ih =>
    intro b
    cases b with
    | nil => simp [areSpriteArraysEqual]
    | cons y ys =>
      have hexp : areSpriteArraysEqual (x :: xs) (y :: ys) = true ↔
          (areSpritesEqual x y = true ∧ areSpriteArraysEqual xs ys = true) := by
        simp only [areSpriteArraysEqual, List.zip_cons_cons, List.all_cons,
          Bool.and_eq_true, decide_eq_true_eq, List.length_cons,
          Nat.add_right_cancel_iff]
        tauto
      rw [hexp, areSpritesEqual_iff, ih ys]
      constructor
      · rintro ⟨rfl, rfl⟩; rfl
      · intro h
        injection h with h1 h2
        exact ⟨h1, h2⟩

theorem jsonImport_appends_without_clearing_redoStack :
    (onJsonImportTransition stateWithRedo [.arr []]).actions =
        stateWithRedo.actions ++ [.bulkImport []] ∧
      (onJsonImportTransition stateWithRedo [.arr []]).redoStack = [.delete 0] :=
  ⟨rfl, rfl⟩

theorem applyAction_create_not_idempotent :
    applyAction (.create imgA) (applyAction (.create imgA) []) ≠
      applyAction (.create imgA) [] := by
  decide

theorem applyAction_absolute_idempotent (a : Action)
    (h : isAbsoluteTargetAction a) (sprites : List Sprite) :
    applyAction a (applyAction a sprites) = applyAction a sprites := by
  cases a with
  | delete spriteId =>
    simp only [applyAction, applySpriteDeletion, List.filter_filter]
    congr 1
    funext a
    exact Bool.and_self _
  | translate spriteId newX newY =>
    simp only [applyAction, applySpriteTranslation, List.map_map]
    refine List.map_congr_left ?_
    intro s _
    by_cases hid : s.id = spriteId <;> simp [Function.comp, hid]
  | scale spriteId newWidth =>
    simp only [applyAction, applySpriteScaling, List.map_map]
    refine List.map_congr_left ?_
    intro s _
    by_cases hid : s.id = spriteId <;>
      simp [Function.comp, hid, sub_self, zero_div, sub_zero]
  | create image => exact absurd h (by simp [isAbsoluteTargetAction])
  | duplicate spriteId => exact absurd h (by simp [isAbsoluteTargetAction])
  | reorderLayers spriteId k => exact absurd h (by simp [isAbsoluteTargetAction])
  | rename spriteId n => exact absurd h (by simp [isAbsoluteTargetAction])
  | bulkImport l => exact absurd h (by simp [isAbsoluteTargetAction])

theorem applyAction_absolute_idempotent_witness :
    applyAction (.translate 0 10 20) (applyAction (.translate 0 10 20) [sprA]) =
      applyAction (.translate 0 10 20) [sprA] :=
  applyAction_absolute_idempotent (.translate 0 10 20) trivial [sprA]

theorem import_aspect_guard_is_one_sided :
    importSpriteDotJson [exampleDoc51] [imgA] =
        .ok (.bulkImport [⟨"a", imgA, 0, 0, 100⟩]) ∧
      importSpriteDotJson [exampleDoc49] [imgA] =
        .error (.aspectRatioMismatch 0 0) := by
  constructor
  · simp [importSpriteDotJson, importFiles, exampleDoc51, validateFileSprites,
      validateSprite, getField, isObjectLike, aspectRatioCheckPasses, imgA,
      List.find?, maxImportAspectRatioDiff, Except.map]
    norm_num
  · simp [importSpriteDotJson, importFiles, exampleDoc49, validateFileSprites,
      validateSprite, getField, isObjectLike, aspectRatioCheckPasses, imgA,
      List.find?, maxImportAspectRatioDiff, Except.map]
    norm_num

theorem scale_sets_width_and_recenters :
    (∀ (spriteId : ℕ) (newWidth : ℚ) (sprites : List Sprite),
        (applySpriteScaling spriteId newWidth sprites).length = sprites.length) ∧
      (∀ (spriteId : ℕ) (newWidth : ℚ) (sprites : List Sprite) (i : ℕ),
        (applySpriteScaling spriteId newWidth sprites)[i]? =
          (sprites[i]?).map (fun s =>
            if s.id = spriteId then
              { s with
                  x := s.x - (newWidth - s.width) / 2
                  y := s.y - (newWidth * s.image.height / s.image.width -
                        s.width * s.image.height / s.image.width) / 2
                  width := newWidth }
            else s)) ∧
      foldActions [.create imgA] = [sprA] ∧
      sprA.width * sprA.image.height / sprA.image.width = 50 ∧
      foldActions [.create imgA, .scale 0 200] =
        [{ name := "a", id := 0, image := imgA, x := -50, y := -25, width := 200 }] ∧
      (200 : ℚ) * imgA.height / imgA.width = 100 := by
  refine ⟨?_, ?_, ?_, ?_, ?_, ?_⟩
  · intro spriteId newWidth sprites
    simp [applySpriteScaling]
  · intro spriteId newWidth sprites i
    simp only [applySpriteScaling, List.getElem?_map]
    rcases sprites[i]? with _ | s
    · rfl
    · by_cases h : s.id = spriteId <;> simp [h]
  · decide
  · norm_num [sprA, imgA]
  · show applyAction (.scale 0 200) (applyAction (.create imgA) []) = _
    rw [show applyAction (.create imgA) [] = [sprA] from by decide]
    simp [applyAction, applySpriteScaling, sprA, imgA]
    norm_num
  · norm_num [imgA]

theorem finalize_scale_at_rest (hypot : ℚ → ℚ → ℚ) (t : PendingData)
    (sprites : List Sprite) (s : Sprite)
    (hfind : sprites.find? (fun sp => sp.id == t.spriteId) = some s)
    (hx : t.pointerCurrentX = t.pointerStartX)
    (hy : t.pointerCurrentY = t.pointerStartY) :
    finalizePendingSpriteScaling hypot t sprites = .scale t.spriteId s.width := by
  simp [finalizePendingSpriteScaling, hfind, hx, hy]

theorem finalize_scale_at_rest_witness :
    finalizePendingSpriteScaling zeroHypot
        { spriteId := 0, pointerStartX := 3, pointerStartY := 4,
          pointerCurrentX := 3, pointerCurrentY := 4 } [sprA] =
      .scale 0 100 :=
  finalize_scale_at_rest zeroHypot _ [sprA] sprA rfl rfl rfl

theorem drop_length_sub_one : ∀ (l : List Action) (h : l ≠ []),
    l.drop (l.length - 1) = [l.getLast h] := by
  intro l
  induction l with
  | nil => intro h; exact absurd rfl h
  | cons x t ih =>
    intro _
    cases t with
    | nil => rfl
    | cons y t' =>
      have : (x :: y :: t').drop ((x :: y :: t').length - 1) =
          (y :: t').drop ((y :: t').length - 1) := by
        simp [List.drop]
      rw [this, ih (by simp)]
      congr 1

theorem undo_redo_roundtrip (st : AppState) (hne : st.actions ≠ [])
    (hmeaningful : getMeaningfulActions st.actions = st.actions)
    (hpending : st.pendingTransformation = none) :
    redoTransition (undoTransition st) = st := by
  cases st with
  | mk proc imgs acts redo pend paste =>
    simp only at hne hmeaningful
    simp only [undoTransition, redoTransition, hmeaningful]
    rw [drop_length_sub_one acts hne]
    rw [AppState.mk.injEq]
    refine ⟨rfl, rfl, ?_, ?_, rfl, rfl⟩
    · have hlen : (redo ++ [acts.getLast hne]).length - 1 = redo.length := by simp
      rw [hlen, List.drop_left]
      exact List.dropLast_append_getLast hne
    · exact List.dropLast_concat

theorem undo_redo_roundtrip_witness :
    redoTransition (undoTransition
        { isProcessingJsonFile := false, imageFiles := [imgA],
          actions := [.create imgA], redoStack := [],
          pendingTransformation := none,
          pasteBuffer := { mode := .noOp, value := 0 } }) =
      { isProcessingJsonFile := false, imageFiles := [imgA],
        actions := [.create imgA], redoStack := [],
        pendingTransformation := none,
        pasteBuffer := { mode := .noOp, value := 0 } } :=
  undo_redo_roundtrip _ (by decide) (by decide) rfl

theorem getMeaningfulActionsAux_fold : ∀ (actions : List Action) (sprites : List Sprite),
    List.foldl (fun s a => applyAction a s) sprites
        (getMeaningfulActionsAux actions sprites) =
      List.foldl (fun s a => applyAction a s) sprites actions := by
  intro actions
  induction actions with
  | nil => intro sprites; rfl
  | cons a rest ih =>
    intro sprites
    rw [getMeaningfulActionsAux]
    by_cases h : areSpriteArraysEqual sprites (applyAction a sprites) = true
    · rw [if_pos h]
      have heq : sprites = applyAction a sprites := (areSpriteArraysEqual_iff _ _).mp h
      rw [ih sprites, List.foldl_cons, ← heq]
    · rw [if_neg h, List.foldl_cons, List.foldl_cons]
      exact ih (applyAction a sprites)

theorem meaningful_actions_fold_eq (actions : List Action) :
    foldActions (getMeaningfulActions actions) = foldActions actions :=
  getMeaningfulActionsAux_fold actions []

theorem uniqueSprites_append_fresh {sprites : List Sprite} {s : Sprite}
    (h : UniqueSprites sprites) (hid : s.id ∉ sprites.map Sprite.id)
    (hname : s.name ∉ sprites.map Sprite.name) :
    UniqueSprites (sprites ++ [s]) := by
  obtain ⟨h1, h2⟩ := h
  constructor
  · rw [List.map_append]
    simp [List.nodup_append, h1, hid]
  · rw [List.map_append]
    simp [List.nodup_append, h2, hname]

theorem map_map_of_preserve {α : Type} (f : Sprite → Sprite) (g : Sprite → α)
    (hf : ∀ s, g (f s) = g s) (l : List Sprite) :
    (l.map f).map g = l.map g := by
  rw [List.map_map]
  exact List.map_congr_left (fun a _ => hf a)

theorem rename_names_nodup : ∀ (l : List Sprite) (spriteId : ℕ) (newName : String),
    (l.map Sprite.id).Nodup → (l.map Sprite.name).Nodup →
    newName ∉ l.map Sprite.name →
    ((l.map (fun sp => if sp.id = spriteId then { sp with name := newName }
      else sp)).map Sprite.name).Nodup := by
  intro l
  induction l with
  | nil => intro _ _ _ _ _; simp
  | cons sp t ih =>
    intro spriteId newName hids hnames hfresh
    rw [List.map_cons] at hids hnames
    obtain ⟨hid_head, hid_tail⟩ := List.nodup_cons.mp hids
    obtain ⟨hname_head, hname_tail⟩ := List.nodup_cons.mp hnames
    rw [List.map_cons, List.mem_cons] at hfresh
    push_neg at hfresh
    obtain ⟨hfresh_head, hfresh_tail⟩ := hfresh
    have hmem_shape : ∀ x, x ∈ (t.map (fun sp => if sp.id = spriteId then
        { sp with name := newName } else sp)).map Sprite.name →
        x = newName ∨ x ∈ t.map Sprite.name := by
      intro x hx
      rw [List.mem_map] at hx
      obtain ⟨y', hy', rfl⟩ := hx
      rw [List.mem_map] at hy'
      obtain ⟨y, hy, rfl⟩ := hy'
      by_cases hy_id : y.id = spriteId
      · left; simp [hy_id]
      · right
        rw [List.mem_map]
        exact ⟨y, hy, by simp [hy_id]⟩
    rw [List.map_cons, List.map_cons, List.nodup_cons]
    by_cases h : sp.id = spriteId
    · have htail_eq : t.map (fun sp => if sp.id = spriteId then
          { sp with name := newName } else sp) = t := by
        have hcongr : ∀ a ∈ t, (if a.id = spriteId then
            { a with name := newName } else a) = id a := by
          intro a ha
          have : a.id ≠ spriteId := by
            intro hcontra
            exact hid_head (List.mem_map.mpr ⟨a, ha, by rw [hcontra, h]⟩)
          simp [this]
        rw [List.map_congr_left hcongr, List.map_id]
      rw [htail_eq]
      simp only [h, if_true]
      exact ⟨hfresh_tail, hname_tail⟩
    · simp only [h, if_false]
      refine ⟨?_, ih spriteId newName hid_tail hname_tail hfresh_tail⟩
      intro hcontra
      rcases hmem_shape sp.name hcontra with hcase | hcase
      · exact hfresh_head hcase.symm
      · exact hname_head hcase

theorem take_get_drop (sprites : List Sprite) (i : ℕ) (h : i < sprites.length) :
    sprites = sprites.take i ++ sprites.get ⟨i, h⟩ :: sprites.drop (i + 1) := by
  conv_lhs => rw [← List.take_append_drop i sprites]
  rw [List.drop_eq_getElem_cons h]
  rfl

theorem reorder_perm (spriteId : ℕ) (k : LayerChangeKind) (sprites : List Sprite) :
    (applySpriteLayerReordering spriteId k sprites).Perm sprites := by
  unfold applySpriteLayerReordering
  dsimp only
  by_cases hfound : sprites.findIdx (fun s => s.id == spriteId) < sprites.length
  · rw [dif_pos hfound]
    set i := sprites.findIdx (fun s => s.id == spriteId) with hi
    cases k with
    | moveUp =>
      dsimp only
      by_cases htop : i = sprites.length - 1
      · rw [dif_pos htop]
      · rw [dif_neg htop]
        have hlt : i + 1 < sprites.length := by omega
        have hdecomp2 : sprites = sprites.take i ++
            sprites.get ⟨i, hfound⟩ :: sprites.get ⟨i + 1, hlt⟩ ::
              sprites.drop (i + 2) := by
          conv_lhs => rw [take_get_drop sprites i hfound]
          congr 2
          rw [List.drop_eq_getElem_cons hlt]
          rfl
        conv_rhs => rw [hdecomp2]
        rw [List.append_assoc]
        refine List.Perm.append_left _ ?_
        exact List.Perm.swap _ _ _
    | moveDown =>
      dsimp only
      by_cases hbot : i = 0
      · rw [dif_pos hbot]
      · rw [dif_neg hbot]
        have hm1 : i - 1 < sprites.length := by omega
        have hi1 : i - 1 + 1 = i := by omega
        have hdecomp2 : sprites = sprites.take (i - 1) ++
            sprites.get ⟨i - 1, hm1⟩ :: sprites.get ⟨i, hfound⟩ ::
              sprites.drop (i + 1) := by
          conv_lhs => rw [take_get_drop sprites (i - 1) hm1]
          congr 2
          rw [hi1, List.drop_eq_getElem_cons hfound]
          rfl
        conv_rhs => rw [hdecomp2]
        rw [List.append_assoc]
        refine List.Perm.append_left _ ?_
        exact List.Perm.swap _ _ _
    | moveToTop =>
      dsimp only
      conv_rhs => rw [take_get_drop sprites i hfound]
      rw [List.append_assoc]
      refine List.Perm.append_left _ ?_
      exact List.perm_append_singleton _ _
    | moveToBottom =>
      dsimp only
      conv_rhs => rw [take_get_drop sprites i hfound]
      exact (List.perm_middle).symm
  · rw [dif_neg hfound]

theorem bulkImportLoop_unique : ∀ (idealSprites : List IdealSprite)
    (out : List Sprite), UniqueSprites out →
    UniqueSprites (bulkImportLoop out idealSprites) := by
  intro idealSprites
  induction idealSprites with
  | nil => intro out h; exact h
  | cons i rest ih =>
    intro out h
    rw [bulkImportLoop]
    refine ih _ (uniqueSprites_append_fresh h ?_ ?_)
    · exact getUnusedId_not_mem out
    · exact getUnusedSpriteName_not_mem i.spriteName out

theorem applyAction_preserves_unique (a : Action) (sprites : List Sprite)
    (h : UniqueSprites sprites) : UniqueSprites (applyAction a sprites) := by
  obtain ⟨hids, hnames⟩ := h
  cases a with
  | create image =>
    exact uniqueSprites_append_fresh ⟨hids, hnames⟩
      (getUnusedId_not_mem sprites) (getUnusedSpriteName_not_mem _ sprites)
  | delete spriteId =>
    have hsub := List.filter_sublist (l := sprites)
      (p := fun sprite => decide (sprite.id ≠ spriteId))
    exact ⟨(hsub.map Sprite.id).nodup hids, (hsub.map Sprite.name).nodup hnames⟩
  | duplicate spriteId =>
    rw [applyAction, applySpriteDuplication]
    rcases hfind : sprites.find? (fun s => s.id == spriteId) with _ | original <;>
      rw [hfind]
    · exact ⟨hids, hnames⟩
    · exact uniqueSprites_append_fresh ⟨hids, hnames⟩
        (getUnusedId_not_mem sprites) (getUnusedSpriteName_not_mem _ sprites)
  | translate spriteId newX newY =>
    constructor
    · rw [applyAction, applySpriteTranslation,
        map_map_of_preserve _ _ (fun s => by by_cases h : s.id = spriteId <;> simp [h])]
      exact hids
    · rw [applyAction, applySpriteTranslation,
        map_map_of_preserve _ _ (fun s => by by_cases h : s.id = spriteId <;> simp [h])]
      exact hnames
  | scale spriteId newWidth =>
    constructor
    · rw [applyAction, applySpriteScaling,
        map_map_of_preserve _ _ (fun s => by by_cases h : s.id = spriteId <;> simp [h])]
      exact hids
    · rw [applyAction, applySpriteScaling,
        map_map_of_preserve _ _ (fun s => by by_cases h : s.id = spriteId <;> simp [h])]
      exact hnames
  | reorderLayers spriteId k =>
    have hperm := reorder_perm spriteId k sprites
    exact ⟨((hperm.map Sprite.id).nodup_iff).mpr hids,
      ((hperm.map Sprite.name).nodup_iff).mpr hnames⟩
  | rename spriteId idealNewName =>
    constructor
    · rw [applyAction, applySpriteRenaming,
        map_map_of_preserve _ _ (fun s => by by_cases h : s.id = spriteId <;> simp [h])]
      exact hids
    · rw [applyAction, applySpriteRenaming]
      exact rename_names_nodup sprites spriteId _ hids hnames
        (getUnusedSpriteName_not_mem idealNewName sprites)
  | bulkImport idealSprites =>
    exact bulkImportLoop_unique idealSprites sprites ⟨hids, hnames⟩

theorem foldl_preserves_unique : ∀ (actions : List Action) (start : List Sprite),
    UniqueSprites start →
    UniqueSprites (actions.foldl (fun sprites action => applyAction action sprites) start) := by
  intro actions
  induction actions with
  | nil => intro start h; exact h
  | cons a rest ih =>
    intro start h
    exact ih _ (applyAction_preserves_unique a start h)

theorem validateSprite_ok_iff (imageFiles : List ImageFile)
    (fileIndex spriteIndex : ℕ) (v : JsonValue) (s : IdealSprite) :
    validateSprite imageFiles fileIndex spriteIndex v = .ok s ↔
      validRecord imageFiles v = some s := by
  unfold validateSprite validRecord
  repeat' split
  all_goals simp_all

theorem validateFileSprites_ok_iff (imageFiles : List ImageFile) (fileIndex : ℕ) :
    ∀ (records : List JsonValue) (spriteIndex : ℕ) (l : List IdealSprite),
      validateFileSprites imageFiles fileIndex spriteIndex records = .ok l ↔
        collectRecords imageFiles records = some l := by
  intro records
  induction records with
  | nil =>
    intro spriteIndex l
    simp [validateFileSprites, collectRecords]
  | cons v rest ih =>
    intro spriteIndex l
    rw [validateFileSprites, collectRecords]
    constructor
    · intro h
      rcases hv : validateSprite imageFiles fileIndex spriteIndex v with e | s
      · rw [hv] at h; exact absurd h (by simp)
      · rw [hv] at h
        rcases hrest : validateFileSprites imageFiles fileIndex (spriteIndex + 1) rest
          with e | l' <;> rw [hrest] at h
        · exact absurd h (by simp)
        · rw [(validateSprite_ok_iff _ _ _ _ _).mp hv,
            ((ih (spriteIndex + 1) l').mp hrest)]
          simpa using h
    · intro h
      rcases hv : validRecord imageFiles v with _ | s <;> rw [hv] at h
      · exact absurd h (by simp)
      · rcases hrest : collectRecords imageFiles rest with _ | l' <;> rw [hrest] at h
        · exact absurd h (by simp)
        · rw [show validateSprite imageFiles fileIndex spriteIndex v = .ok s from
            (validateSprite_ok_iff _ _ _ _ _).mpr hv]
          rw [show validateFileSprites imageFiles fileIndex (spriteIndex + 1) rest =
            .ok l' from (ih (spriteIndex + 1) l').mpr hrest]
          simpa using h

theorem importFiles_ok_iff (imageFiles : List ImageFile) :
    ∀ (docs : List JsonValue) (fileIndex : ℕ) (l : List IdealSprite),
      importFiles imageFiles fileIndex docs = .ok l ↔
        collectValidRecords imageFiles docs = some l := by
  intro docs
  induction docs with
  | nil =>
    intro fileIndex l
    simp [importFiles, collectValidRecords]
  | cons doc rest ih =>
    intro fileIndex l
    cases doc with
    | arr records =>
      rw [importFiles, collectValidRecords]
      constructor
      · intro h
        rcases hr : validateFileSprites imageFiles fileIndex 0 records with e | xs <;>
          rw [hr] at h
        · exact absurd h (by simp)
        · rcases hrest : importFiles imageFiles (fileIndex + 1) rest with e | ys <;>
            rw [hrest] at h
          · exact absurd h (by simp)
          · rw [(validateFileSprites_ok_iff _ _ _ _ _).mp hr,
              (ih (fileIndex + 1) ys).mp hrest]
            simpa using h
      · intro h
        rcases hr : collectRecords imageFiles records with _ | xs <;> rw [hr] at h
        · exact absurd h (by simp)
        · rcases hrest : collectValidRecords imageFiles rest with _ | ys <;>
            rw [hrest] at h
          · exact absurd h (by simp)
          · rw [show validateFileSprites imageFiles fileIndex 0 records = .ok xs from
              (validateFileSprites_ok_iff _ _ _ _ _).mpr hr]
            rw [show importFiles imageFiles (fileIndex + 1) rest = .ok ys from
              (ih (fileIndex + 1) ys).mpr hrest]
            simpa using h
    | null => simp [importFiles, collectValidRecords]
    | bool b => simp [importFiles, collectValidRecords]
    | num q => simp [importFiles, collectValidRecords]
    | str s => simp [importFiles, collectValidRecords]
    | obj fields => simp [importFiles, collectValidRecords]

theorem import_fails_closed_or_collects_all (jsonObjects : List JsonValue)
    (st : AppState) :
    (∃ e, importSpriteDotJson jsonObjects st.imageFiles = .error e ∧
        (onJsonImportTransition st jsonObjects).actions = st.actions) ∨
      (∃ idealSprites,
        importSpriteDotJson jsonObjects st.imageFiles =
            .ok (.bulkImport idealSprites) ∧
          collectValidRecords st.imageFiles jsonObjects = some idealSprites ∧
          (onJsonImportTransition st jsonObjects).actions =
            st.actions ++ [.bulkImport idealSprites]) := by
  rcases himp : importSpriteDotJson jsonObjects st.imageFiles with e | a
  · left
    exact ⟨e, rfl, by simp [onJsonImportTransition, himp]⟩
  · right
    have hfiles : ∃ l, importFiles st.imageFiles 0 jsonObjects = .ok l ∧
        a = .bulkImport l := by
      unfold importSpriteDotJson at himp
      rcases h : importFiles st.imageFiles 0 jsonObjects with e | l <;> rw [h] at himp
      · exact absurd himp (by simp [Except.map])
      · exact ⟨l, rfl, by simpa [Except.map] using himp.symm⟩
    obtain ⟨l, hl, rfl⟩ := hfiles
    exact ⟨l, rfl, (importFiles_ok_iff _ _ _ _).mp hl,
      by simp [onJsonImportTransition, himp]⟩

theorem getUnusedSpriteName_eq_of_not_mem {idealName : String}
    {sprites : List Sprite} (h : idealName ∉ sprites.map Sprite.name) :
    getUnusedSpriteName idealName sprites = idealName := by
  rw [getUnusedSpriteName, getUnusedSpriteNameWithMinimumCounter,
    getUnusedSpriteNameAux]
  simp [h]

theorem validate_export_record (imageFiles : List ImageFile) (s : Sprite)
    (fileIndex spriteIndex : ℕ) (hw : 0 < s.width) (hiw : 0 < s.image.width)
    (hih : 0 < s.image.height)
    (hfind : imageFiles.find? (fun i => i.sha256 == s.image.sha256) = some s.image) :
    validateSprite imageFiles fileIndex spriteIndex
        (exportRecordJson
          { spriteName := s.name, imageFileName := s.image.name,
            imageSha256 := s.image.sha256, x := s.x, y := s.y,
            width := s.width,
            height := s.width * s.image.height / s.image.width }) =
      .ok (spriteToIdeal s) := by
  have hh : 0 < s.width * s.image.height / s.image.width :=
    div_pos (mul_pos hw hih) hiw
  have hratio : s.width / (s.width * s.image.height / s.image.width) =
      s.image.width / s.image.height := by
    rw [div_div_eq_mul_div, mul_div_mul_left _ _ (ne_of_gt hw)]
  have haspect : aspectRatioCheckPasses s.width
      (s.width * s.image.height / s.image.width) s.image.width s.image.height =
        true := by
    rw [aspectRatioCheckPasses, if_neg (by exact ne_of_gt hh),
      if_neg (by exact ne_of_gt hih)]
    rw [decide_eq_true_eq, hratio, sub_self]
    norm_num [maxImportAspectRatioDiff]
  simp [validateSprite, exportRecordJson, getField, isObjectLike, List.find?,
    hfind, hw.le, hh.le, haspect, spriteToIdeal]

theorem validate_exported_sprites (imageFiles : List ImageFile) :
    ∀ (sprites : List Sprite) (fileIndex spriteIndex : ℕ),
      (∀ s ∈ sprites, 0 < s.width) →
      (∀ s ∈ sprites, 0 < s.image.width ∧ 0 < s.image.height) →
      (∀ s ∈ sprites,
        imageFiles.find? (fun i => i.sha256 == s.image.sha256) = some s.image) →
      validateFileSprites imageFiles fileIndex spriteIndex
          ((serializeSprites sprites).map exportRecordJson) =
        .ok (sprites.map spriteToIdeal) := by
  intro sprites
  induction sprites with
  | nil => intro _ _ _ _ _; rfl
  | cons s rest ih =>
    intro fileIndex spriteIndex hw himg hfind
    rw [serializeSprites, List.map_cons, List.map_cons, validateFileSprites]
    rw [validate_export_record imageFiles s fileIndex spriteIndex
      (hw s (by simp)) (himg s (by simp)).1 (himg s (by simp)).2
      (hfind s (by simp))]
    have hrest := ih fileIndex (spriteIndex + 1)
      (fun x hx => hw x (by simp [hx]))
      (fun x hx => himg x (by simp [hx]))
      (fun x hx => hfind x (by simp [hx]))
    rw [serializeSprites] at hrest
    rw [hrest]
    rfl

theorem bulkImportLoop_data : ∀ (idealSprites : List IdealSprite)
    (out : List Sprite),
    (out.map Sprite.name ++ idealSprites.map IdealSprite.spriteName).Nodup →
    (bulkImportLoop out idealSprites).map spriteData =
      out.map spriteData ++ idealSprites.map idealData := by
  intro idealSprites
  induction idealSprites with
  | nil => intro out _; simp [bulkImportLoop]
  | cons i rest ih =>
    intro out hnodup
    have hfresh : i.spriteName ∉ out.map Sprite.name := by
      intro hmem
      rw [List.map_cons] at hnodup
      have hdisj := (List.nodup_append.mp hnodup).2.2
      exact hdisj hmem (by simp)
    have hname := getUnusedSpriteName_eq_of_not_mem hfresh
    have hnodup' : ((out ++ [bulkImportStep out i]).map Sprite.name ++
        rest.map IdealSprite.spriteName).Nodup := by
      rw [List.map_append]
      simp only [List.map_cons, List.map_nil]
      have hstep : (bulkImportStep out i).name = i.spriteName := by
        simp [bulkImportStep, hname]
      rw [hstep]
      rw [List.map_cons] at hnodup
      simpa [List.append_assoc] using hnodup
    rw [bulkImportLoop, ih _ hnodup']
    rw [List.map_append, List.map_cons]
    simp [spriteData, idealData, hname, bulkImportStep, List.append_assoc]

theorem export_import_roundtrip_fails_at_zero_width :
    foldActions [.create imgA, .scale 0 0] =
        [{ name := "a", id := 0, image := imgA, x := 50, y := 25, width := 0 }] ∧
      importSpriteDotJson
          [exportedDocument (foldActions [.create imgA, .scale 0 0])] [imgA] =
        .error (.aspectRatioMismatch 0 0) := by
  have hfold : foldActions [.create imgA, .scale 0 0] =
      [{ name := "a", id := 0, image := imgA, x := 50, y := 25, width := 0 }] := by
    show applyAction (.scale 0 0) (applyAction (.create imgA) []) = _
    rw [show applyAction (.create imgA) [] = [sprA] from by decide]
    simp [applyAction, applySpriteScaling, sprA, imgA]
    norm_num
  refine ⟨hfold, ?_⟩
  rw [hfold]
  simp [importSpriteDotJson, importFiles, exportedDocument, serializeSprites,
    exportRecordJson, validateFileSprites, validateSprite, getField,
    isObjectLike, aspectRatioCheckPasses, imgA, List.find?, Except.map]

theorem export_import_roundtrip (sprites : List Sprite)
    (imageFiles : List ImageFile)
    (hw : ∀ s ∈ sprites, 0 < s.width)
    (himg : ∀ s ∈ sprites, 0 < s.image.width ∧ 0 < s.image.height)
    (hfind : ∀ s ∈ sprites,
      imageFiles.find? (fun i => i.sha256 == s.image.sha256) = some s.image)
    (hnames : (sprites.map Sprite.name).Nodup) :
    importSpriteDotJson [exportedDocument sprites] imageFiles =
        .ok (.bulkImport (sprites.map spriteToIdeal)) ∧
      (applyBulkImport (sprites.map spriteToIdeal) []).map spriteData =
        sprites.map spriteData := by
  constructor
  · rw [importSpriteDotJson, exportedDocument, importFiles,
      validate_exported_sprites imageFiles sprites 0 0 hw himg hfind]
    simp [importFiles, Except.map]
  · rw [applyBulkImport]
    have hnodup : (([] : List Sprite).map Sprite.name ++
        (sprites.map spriteToIdeal).map IdealSprite.spriteName).Nodup := by
      rw [List.map_map]
      simpa [Function.comp, spriteToIdeal] using hnames
    rw [bulkImportLoop_data (sprites.map spriteToIdeal) [] hnodup]
    rw [List.map_map, List.map_nil, List.nil_append]
    refine List.map_congr_left ?_
    intro s _
    simp [Function.comp, spriteToIdeal, idealData, spriteData]

theorem export_import_roundtrip_witness :
    importSpriteDotJson [exportedDocument [sprA]] [imgA] =
        .ok (.bulkImport ([sprA].map spriteToIdeal)) ∧
      (applyBulkImport ([sprA].map spriteToIdeal) []).map spriteData =
        [sprA].map spriteData :=
  export_import_roundtrip [sprA] [imgA] (by decide) (by decide) (by decide)
    (by decide)

theorem fold_unique_and_id_fresh :
    (∀ actions : List Action,
        ((foldActions actions).map Sprite.id).Nodup ∧
          ((foldActions actions).map Sprite.name).Nodup) ∧
      ∀ sprites : List Sprite, getUnusedId sprites ∉ sprites.map Sprite.id :=
  ⟨fun actions => foldl_preserves_unique actions [] ⟨List.nodup_nil, List.nodup_nil⟩,
    getUnusedId_not_mem⟩

end Collage

